import Mathlib

/-!
Shallow embedding of the backtesting engine of kimpop2/backtest
(`backtester/portfolio_manager.py`, `backtester/backtester.py`,
`strategy/moving_average_crossover.py`, `db/db_manager.py`),
together with theorems settling the specification claims.

Monetary amounts and prices are rationals, share quantities are
integers (Python ints), timestamps are naturals.  Python dicts keyed
by stock code are association lists in insertion order; dict access,
assignment and deletion become `hfind`, `hset` and `herase`.
-/

namespace Backtest

/-- One value of the `holdings` dict of `PortfolioManager`:
`{'quantity': int, 'avg_price': float, 'current_price': float}`. -/
structure Holding where
  quantity : Int
  avg_price : Rat
  current_price : Rat
deriving Repr, DecidableEq

/-- Dict lookup on an association list (first matching key). -/
def hfind {α : Type} (hs : List (String × α)) (c : String) : Option α :=
  match hs with
  | [] => none
  | (k, v) :: rest => if k = c then some v else hfind rest c

/-- Dict assignment: replace the value at the key if present, else append. -/
def hset {α : Type} (hs : List (String × α)) (c : String) (v : α) : List (String × α) :=
  match hs with
  | [] => [(c, v)]
  | (k, w) :: rest => if k = c then (c, v) :: rest else (k, w) :: hset rest c v

/-- Dict deletion (`del d[k]`): drop the entry with the key. -/
def herase {α : Type} (hs : List (String × α)) (c : String) : List (String × α) :=
  match hs with
  | [] => []
  | (k, w) :: rest => if k = c then rest else (k, w) :: herase rest c

/-- One entry of `PortfolioManager.trade_logs`. -/
structure TradeLog where
  trade_type : String
  stock_code : String
  trade_date : Nat
  price : Rat
  quantity : Int
  commission : Rat
  slippage : Rat
  pnl : Rat
  position_size : Int
  portfolio_value : Rat
deriving Repr, DecidableEq

/-- One entry of `PortfolioManager.portfolio_value_history`. -/
structure Snapshot where
  date : Nat
  portfolio_value : Rat
  cash : Rat
  holdings_value : Rat
deriving Repr, DecidableEq

/-- The mutable state of a `PortfolioManager` instance. -/
structure PMState where
  initial_capital : Rat
  current_cash : Rat
  holdings : List (String × Holding)
  trade_logs : List TradeLog
  portfolio_value_history : List Snapshot
  commission_rate : Rat
  slippage_rate : Rat
  current_date : Nat
deriving Repr, DecidableEq

/-- `PortfolioManager.__init__(initial_capital, commission_rate, slippage_rate)`. -/
def initPM (initial_capital commission_rate slippage_rate : Rat) : PMState :=
  { initial_capital := initial_capital
    current_cash := initial_capital
    holdings := []
    trade_logs := []
    portfolio_value_history := []
    commission_rate := commission_rate
    slippage_rate := slippage_rate
    current_date := 0 }

/-- A signal dict as consumed by `execute_order`; each field read with
`.get`, so a missing key is `none`. -/
structure Signal where
  signal : Option String
  stock_code : Option String
  price : Option Rat
  quantity : Option Int
deriving Repr, DecidableEq

/-- `PortfolioManager.get_holding_quantity`. -/
def get_holding_quantity (st : PMState) (c : String) : Int :=
  (Option.map Holding.quantity (hfind st.holdings c)).getD 0

/-- Average cost basis of a position, 0 when flat (used only to state
theorems; the source keeps it inside the holdings dict). -/
def get_avg_price (st : PMState) (c : String) : Rat :=
  (Option.map Holding.avg_price (hfind st.holdings c)).getD 0

/-- Sum of `quantity * current_price` over the holdings dict, in
iteration order, as in `get_current_portfolio_value`. -/
def holdings_value (hs : List (String × Holding)) : Rat :=
  hs.foldl (fun acc ch => acc + (ch.2.quantity : Rat) * ch.2.current_price) 0

/-- `PortfolioManager.get_current_portfolio_value`. -/
def get_current_portfolio_value (st : PMState) : Rat :=
  st.current_cash + holdings_value st.holdings

/-- The trade-log record appended by `execute_order` on success;
`position_size` and `portfolio_value` are read from the already
mutated state, as in the source. -/
def mkLog (st : PMState) (ty code : String) (price : Rat) (qty : Int)
    (commission slippage pnl : Rat) : TradeLog :=
  { trade_type := ty
    stock_code := code
    trade_date := st.current_date
    price := price
    quantity := qty
    commission := commission
    slippage := slippage
    pnl := pnl
    position_size := get_holding_quantity st code
    portfolio_value := get_current_portfolio_value st }

/-- `PortfolioManager.execute_order(signal)`.  Returns the success flag
together with the state after the call.  The `not all([...])` guard
rejects a signal whose fields are missing or falsy (empty string,
zero). -/
def execute_order (st : PMState) (sig : Signal) : Bool × PMState :=
  match sig.signal, sig.stock_code, sig.price, sig.quantity with
  | some trade_type, some stock_code, some price, some quantity =>
    if trade_type = "" ∨ stock_code = "" ∨ price = 0 ∨ quantity = 0 then
      (false, st)
    else
      let commission := price * (quantity : Rat) * st.commission_rate
      let slippage := price * (quantity : Rat) * st.slippage_rate
      if trade_type = "BUY" then
        let total_cost := price * (quantity : Rat) + commission + slippage
        if total_cost ≤ st.current_cash then
          let h0 := (hfind st.holdings stock_code).getD
            { quantity := 0, avg_price := 0, current_price := price }
          let new_total_value := (h0.quantity : Rat) * h0.avg_price + price * (quantity : Rat)
          let new_total_quantity := h0.quantity + quantity
          let new_avg := if 0 < new_total_quantity then
              new_total_value / (new_total_quantity : Rat) else 0
          let st1 := { st with
            current_cash := st.current_cash - total_cost
            holdings := hset st.holdings stock_code
              { quantity := new_total_quantity, avg_price := new_avg,
                current_price := h0.current_price } }
          (true, { st1 with trade_logs :=
            st1.trade_logs ++ [mkLog st1 "BUY" stock_code price quantity commission slippage 0] })
        else (false, st)
      else if trade_type = "SELL" then
        match hfind st.holdings stock_code with
        | some h =>
          if quantity ≤ h.quantity then
            let pnl := price * (quantity : Rat) - h.avg_price * (quantity : Rat)
              - commission - slippage
            let holdings1 := if h.quantity - quantity = 0 then herase st.holdings stock_code
              else hset st.holdings stock_code { h with quantity := h.quantity - quantity }
            let st1 := { st with
              current_cash := st.current_cash + (price * (quantity : Rat) - commission - slippage)
              holdings := holdings1 }
            (true, { st1 with trade_logs :=
              st1.trade_logs ++ [mkLog st1 "SELL" stock_code price quantity commission slippage pnl] })
          else (false, st)
        | none => (false, st)
      else (false, st)
  | _, _, _, _ => (false, st)

/-- The loop body of `update_current_market_data`: walk the holdings
dict, set `current_price` for each stock present in `market_prices`,
and accumulate `quantity * current_price` for those stocks only
(stocks absent from the map are skipped, keeping their old mark and
contributing nothing). Returns the updated dict and the total. -/
def updateHoldings (prices : List (String × Rat)) :
    List (String × Holding) → List (String × Holding) × Rat
  | [] => ([], 0)
  | (c, h) :: rest =>
    let r := updateHoldings prices rest
    match hfind prices c with
    | some p => ((c, { h with current_price := p }) :: r.1, (h.quantity : Rat) * p + r.2)
    | none => ((c, h) :: r.1, r.2)

/-- `PortfolioManager.update_current_market_data(ts, market_prices)`. -/
def update_current_market_data (st : PMState) (ts : Nat)
    (prices : List (String × Rat)) : PMState :=
  let r := updateHoldings prices st.holdings
  { st with
    current_date := ts
    holdings := r.1
    portfolio_value_history := st.portfolio_value_history ++
      [{ date := ts, portfolio_value := st.current_cash + r.2,
         cash := st.current_cash, holdings_value := r.2 }] }

/-- The dict returned by `PortfolioManager.get_final_results`. -/
structure FinalResults where
  initial_capital : Rat
  final_capital : Rat
  total_return : Rat
  total_trades : Nat
  max_drawdown : Rat
  win_rate : Rat
  commission_rate : Rat
  slippage_rate : Rat
deriving Repr, DecidableEq

/-- Tail of `pandas.expanding().max()` given the running maximum so far. -/
def runningPeaksAux (m : Rat) : List Rat → List Rat
  | [] => []
  | v :: rest => max m v :: runningPeaksAux (max m v) rest

/-- `pandas.Series.expanding().max()`: running maximum up to and
including each point. -/
def runningPeaks : List Rat → List Rat
  | [] => []
  | v :: rest => v :: runningPeaksAux v rest

/-- Minimum of a series (`pandas.Series.min()`); 0 on an empty series. -/
def listMin : List Rat → Rat
  | [] => 0
  | v :: rest => rest.foldl min v

/-- The drawdown series `(value - peak) / peak` of `get_final_results`. -/
def drawdowns (vs : List Rat) : List Rat :=
  List.zipWith (fun v pk => (v - pk) / pk) vs (runningPeaks vs)

/-- The `max_drawdown` computation of `get_final_results`. -/
def max_drawdown (st : PMState) : Rat :=
  let vs := st.portfolio_value_history.map Snapshot.portfolio_value
  if vs = [] then 0 else listMin (drawdowns vs) * 100

/-- `PortfolioManager.get_final_results()`. -/
def get_final_results (st : PMState) : FinalResults :=
  let final_value := get_current_portfolio_value st
  { initial_capital := st.initial_capital
    final_capital := final_value
    total_return := if 0 < st.initial_capital then
      (final_value - st.initial_capital) / st.initial_capital * 100 else 0
    total_trades := st.trade_logs.length
    max_drawdown := max_drawdown st
    win_rate :=
      let sells := st.trade_logs.filter (fun t => decide (t.trade_type = "SELL"))
      let wins := st.trade_logs.filter
        (fun t => decide (0 < t.pnl) && decide (t.trade_type = "SELL"))
      if sells.length = 0 then 0 else (wins.length : Rat) / (sells.length : Rat) * 100
    commission_rate := st.commission_rate
    slippage_rate := st.slippage_rate }

/-! ## The simulation driver (`backtester/backtester.py`)

A bar is reduced to its close price; a per-stock data series is a list
of `(timestamp, close)` pairs in the order the DB returns them.
`get_daily_data` is the SQL query `WHERE stock_code = %s AND date
BETWEEN %s AND %s` of `db_manager.py`. -/

/-- A daily or minute bar, reduced to the close price the engine reads. -/
structure Bar where
  close_price : Rat
deriving Repr, DecidableEq

/-- `DBManager.get_daily_data(stock_code, start_date, end_date)`:
the stored series filtered to `start ≤ date ≤ end`. -/
def get_daily_data (db : String → List (Nat × Bar)) (code : String)
    (s e : Nat) : List (Nat × Bar) :=
  (db code).filter (fun b => decide (s ≤ b.1) && decide (b.1 ≤ e))

/-- The `all_data_for_day` dict built in `run_backtest`'s daily branch:
per stock, the window from the run start up to the current day, with
stocks whose window is empty skipped. -/
def daily_window_data (db : String → List (Nat × Bar)) (stock_list : List String)
    (s cur : Nat) : List (String × List (Nat × Bar)) :=
  stock_list.filterMap (fun code =>
    let df := get_daily_data db code s cur
    if df = [] then none else some (code, df))

/-- The `market_prices_for_day` dict: last close of each nonempty window. -/
def daily_market_prices (db : String → List (Nat × Bar)) (stock_list : List String)
    (s cur : Nat) : List (String × Rat) :=
  stock_list.filterMap (fun code =>
    let df := get_daily_data db code s cur
    match df.getLast? with
    | some b => some (code, b.2.close_price)
    | none => none)

/-- `all_minute_data_for_day_raw`: per stock, the day's minute series,
stocks without data skipped (`db_min` stands for
`get_minute_data_for_date` on the current day). -/
def minute_raw (db_min : String → List (Nat × Bar)) (stock_list : List String) :
    List (String × List (Nat × Bar)) :=
  stock_list.filterMap (fun code =>
    let df := db_min code
    if df = [] then none else some (code, df))

/-- `sorted(list(set(dt for df in ... for dt in df.index)))`: the sorted
deduplicated union of all minute timestamps of the day. -/
def all_datetimes (raws : List (String × List (Nat × Bar))) : List Nat :=
  List.mergeSort (raws.flatMap (fun cd => cd.2.map Prod.fst)).dedup (· ≤ ·)

/-- `df[df.index <= current_datetime]`: bars up to the current instant. -/
def minute_window (df : List (Nat × Bar)) (t : Nat) : List (Nat × Bar) :=
  df.filter (fun b => decide (b.1 ≤ t))

/-- `current_all_minute_data`: per stock, bars up to the current
instant, stocks with an empty slice skipped. -/
def minute_window_data (raws : List (String × List (Nat × Bar))) (t : Nat) :
    List (String × List (Nat × Bar)) :=
  raws.filterMap (fun cd =>
    let f := minute_window cd.2 t
    if f = [] then none else some (cd.1, f))

/-- The configuration `run_backtest` reads from the `Backtester`
fields set by `load_data_for_backtest` (`None` dates are unset). -/
structure BTConfig where
  stock_list : List String
  start_date : Option Nat
  end_date : Option Nat
  initial_capital : Rat
  commission_rate : Rat
  slippage_rate : Rat
deriving Repr, DecidableEq

/-- One iteration of the daily `while` loop of `run_backtest`: build
the windows and price map, update marks, then apply the strategy's
signals in order (only when at least one stock has data). -/
def day_step (db : String → List (Nat × Bar)) (stock_list : List String) (s : Nat)
    (strat : Nat → List (String × List (Nat × Bar)) → List Signal)
    (pm : PMState) (cur : Nat) : PMState :=
  let data := daily_window_data db stock_list s cur
  let prices := daily_market_prices db stock_list s cur
  let pm1 := update_current_market_data pm cur prices
  if data = [] then pm1
  else (strat cur data).foldl (fun p sg => (execute_order p sg).2) pm1

/-- `Backtester.run_backtest()` (daily mode), with the DB and the
strategy abstracted as functions.  Returns `none` on the early
`return` taken when the stock list is empty or a date is unset;
otherwise runs every day from start to end and returns the final
results together with the final ledger state. -/
def run_backtest (cfg : BTConfig) (db : String → List (Nat × Bar))
    (strat : Nat → List (String × List (Nat × Bar)) → List Signal) :
    Option (FinalResults × PMState) :=
  if cfg.stock_list = [] ∨ cfg.start_date = none ∨ cfg.end_date = none then none
  else
    match cfg.start_date, cfg.end_date with
    | some s, some e =>
      let pm0 := initPM cfg.initial_capital cfg.commission_rate cfg.slippage_rate
      let days := (List.range (e + 1 - s)).map (s + ·)
      let pmF := days.foldl (day_step db cfg.stock_list s strat) pm0
      some (get_final_results pmF, pmF)
    | _, _ => none

/-! ## The reference strategy (`strategy/moving_average_crossover.py`)

Only the close-price column is read, so a data frame row becomes a
`(timestamp, close)` pair. -/

/-- The mutable per-instrument state of `MovingAverageCrossoverStrategy`. -/
structure StratState where
  short_window : Nat
  long_window : Nat
  previous_short_ma : List (String × Option Rat)
  previous_long_ma : List (String × Option Rat)
  current_positions : List (String × Bool)
deriving Repr, DecidableEq

/-- `MovingAverageCrossoverStrategy.on_init`: every stock starts with
no previous moving averages and `current_positions = False`. -/
def strat_on_init (short_window long_window : Nat) (stock_list : List String) : StratState :=
  { short_window := short_window
    long_window := long_window
    previous_short_ma := stock_list.map (fun c => (c, none))
    previous_long_ma := stock_list.map (fun c => (c, none))
    current_positions := stock_list.map (fun c => (c, false)) }

/-- `pandas.Series.mean()` of a list of closes. -/
def mean (l : List Rat) : Rat := l.sum / (l.length : Rat)

/-- `series.iloc[-n:]`: the last `n` elements. -/
def lastN {α : Type} (n : Nat) (l : List α) : List α := l.drop (l.length - n)

/-- `MovingAverageCrossoverStrategy.generate_signal(stock_code, data)`:
returns the signal dict and the updated strategy state.  Note that the
hold/position check reads the strategy's own `current_positions` flag
and the emitted SELL quantity is the literal `100` from the source. -/
def generate_signal (st : StratState) (code : String) (data : List (Nat × Rat)) :
    Signal × StratState :=
  if data = [] ∨ data.length < max st.short_window st.long_window then
    ({ signal := some "HOLD", stock_code := none, price := none, quantity := none }, st)
  else
    let closes := data.map Prod.snd
    let short_ma := mean (lastN st.short_window closes)
    let long_ma := mean (lastN st.long_window closes)
    let current_price := closes.getLast?.getD 0
    let base : Signal :=
      { signal := some "HOLD", stock_code := some code, price := none, quantity := none }
    let sig :=
      match (hfind st.previous_short_ma code).getD none,
            (hfind st.previous_long_ma code).getD none with
      | some ps, some pl =>
        if ps ≤ pl ∧ long_ma < short_ma then
          if (hfind st.current_positions code).getD false = false then
            { signal := some "BUY", stock_code := some code,
              price := some current_price, quantity := some 1 }
          else base
        else if pl ≤ ps ∧ short_ma < long_ma then
          if (hfind st.current_positions code).getD false = true then
            { signal := some "SELL", stock_code := some code,
              price := some current_price, quantity := some 100 }
          else base
        else base
      | _, _ => base
    (sig, { st with
      previous_short_ma := hset st.previous_short_ma code (some short_ma)
      previous_long_ma := hset st.previous_long_ma code (some long_ma) })

/-! ## Predicates used to state the claims -/

/-- A signal whose price and quantity fields, when present, are
nonnegative (every signal a real strategy emits). -/
def goodSignal (sig : Signal) : Prop :=
  (∀ p, sig.price = some p → 0 ≤ p) ∧ (∀ q, sig.quantity = some q → 0 ≤ q)

/-- The spec's ledger invariant: cash ≥ 0 and every held quantity ≥ 0. -/
def ledger_ok (st : PMState) : Prop :=
  0 ≤ st.current_cash ∧ ∀ ch ∈ st.holdings, 0 ≤ (Prod.snd ch).quantity

/-- Apply a list of signals through `execute_order`, in order. -/
def apply_signals (st : PMState) (sigs : List Signal) : PMState :=
  sigs.foldl (fun s sg => (execute_order s sg).2) st

/-- Every order in the sequence is applied successfully. -/
def all_succeed : PMState → List Signal → Prop
  | _, [] => True
  | st, sg :: rest =>
    (execute_order st sg).1 = true ∧ all_succeed (execute_order st sg).2 rest

/-- `cost + commission + slippage` of a signal, from its fields. -/
def sig_total (cr sr : Rat) (sig : Signal) : Rat :=
  sig.price.getD 0 * ((sig.quantity.getD 0 : Int) : Rat)
  + sig.price.getD 0 * ((sig.quantity.getD 0 : Int) : Rat) * cr
  + sig.price.getD 0 * ((sig.quantity.getD 0 : Int) : Rat) * sr

/-- Maximum of a series (0 on empty): spec-side running-peak building
block. -/
def listMax : List Rat → Rat
  | [] => 0
  | v :: rest => rest.foldl max v

/-- The spec's running peak: the maximum of the snapshot values up to
and including index `i`. -/
def spec_running_peak (vs : List Rat) (i : Nat) : Rat := listMax (vs.take (i + 1))

/-- The spec's drawdown series, written by index:
`(value_i − runningPeak_i) / runningPeak_i`. -/
def spec_drawdowns (vs : List Rat) : List Rat :=
  (List.range vs.length).map
    (fun i => (vs.getD i 0 - spec_running_peak vs i) / spec_running_peak vs i)

/-- The spec's max drawdown: the minimum over the snapshot series of
the drawdowns, times 100; 0 with no snapshots. -/
def spec_max_drawdown (vs : List Rat) : Rat :=
  if vs = [] then 0 else listMin (spec_drawdowns vs) * 100

/-! ## Helper lemmas on the association-list dictionary operations -/

theorem mem_hset {α : Type} (hs : List (String × α)) (c : String) (v : α)
    (x : String × α) (hx : x ∈ hset hs c v) : x = (c, v) ∨ x ∈ hs := by
  induction hs with
  | nil => simpa [hset] using hx
  | cons kv rest ih =>
    obtain ⟨k, w⟩ := kv
    by_cases h : k = c
    · simp only [hset, if_pos h, List.mem_cons] at hx
      rcases hx with rfl | hx
      · exact Or.inl rfl
      · exact Or.inr (List.mem_cons_of_mem _ hx)
    · simp only [hset, if_neg h, List.mem_cons] at hx
      rcases hx with rfl | hx
      · exact Or.inr (List.mem_cons_self _ _)
      · rcases ih hx with h' | h'
        · exact Or.inl h'
        · exact Or.inr (List.mem_cons_of_mem _ h')

theorem mem_herase {α : Type} (hs : List (String × α)) (c : String)
    (x : String × α) (hx : x ∈ herase hs c) : x ∈ hs := by
  induction hs with
  | nil => simp [herase] at hx
  | cons kv rest ih =>
    obtain ⟨k, w⟩ := kv
    by_cases h : k = c
    · simp only [herase, if_pos h] at hx
      exact List.mem_cons_of_mem _ hx
    · simp only [herase, if_neg h, List.mem_cons] at hx
      rcases hx with rfl | hx
      · exact List.mem_cons_self _ _
      · exact List.mem_cons_of_mem _ (ih hx)

theorem hfind_mem {α : Type} (hs : List (String × α)) (c : String) (v : α)
    (h : hfind hs c = some v) : (c, v) ∈ hs := by
  induction hs with
  | nil => simp [hfind] at h
  | cons kv rest ih =>
    obtain ⟨k, w⟩ := kv
    by_cases hk : k = c
    · subst hk
      simp only [hfind, if_pos rfl] at h
      cases h
      exact List.mem_cons_self _ _
    · simp only [hfind, if_neg hk] at h
      exact List.mem_cons_of_mem _ (ih h)

theorem hfind_hset_self {α : Type} (hs : List (String × α)) (c : String) (v : α) :
    hfind (hset hs c v) c = some v := by
  induction hs with
  | nil => simp [hset, hfind]
  | cons kv rest ih =>
    obtain ⟨k, w⟩ := kv
    by_cases h : k = c
    · simp [hset, h, hfind]
    · simp [hset, h, hfind, ih]

theorem hfind_hset_ne {α : Type} (hs : List (String × α)) (c c' : String) (v : α)
    (h : c ≠ c') : hfind (hset hs c v) c' = hfind hs c' := by
  induction hs with
  | nil => simp [hset, hfind, h]
  | cons kv rest ih =>
    obtain ⟨k, w⟩ := kv
    by_cases hk : k = c
    · subst hk; simp [hset, hfind, h, ih]
    · simp [hset, hk, hfind, ih]

theorem hfind_eq_none_of_not_mem {α : Type} (hs : List (String × α)) (c : String)
    (h : c ∉ hs.map Prod.fst) : hfind hs c = none := by
  induction hs with
  | nil => rfl
  | cons kv rest ih =>
    obtain ⟨k, w⟩ := kv
    simp only [List.map_cons, List.mem_cons] at h
    push_neg at h
    have hkc : ¬k = c := fun hkc => h.1 hkc.symm
    simp [hfind, hkc, ih h.2]

theorem hfind_herase_self {α : Type} (hs : List (String × α)) (c : String)
    (hnd : (hs.map Prod.fst).Nodup) : hfind (herase hs c) c = none := by
  induction hs with
  | nil => rfl
  | cons kv rest ih =>
    obtain ⟨k, w⟩ := kv
    simp only [List.map_cons, List.nodup_cons] at hnd
    by_cases hk : k = c
    · subst hk
      simpa [herase] using hfind_eq_none_of_not_mem rest k hnd.1
    · simp [herase, hk, hfind, ih hnd.2]

/-! ## Characterization of `execute_order` -/

/-- A fully populated BUY signal dict. -/
def buySig (code : String) (p : Rat) (q : Int) : Signal :=
  ⟨some "BUY", some code, some p, some q⟩

/-- A fully populated SELL signal dict. -/
def sellSig (code : String) (p : Rat) (q : Int) : Signal :=
  ⟨some "SELL", some code, some p, some q⟩

/-- `cost + commission + slippage` of a BUY as computed in `execute_order`. -/
def buy_total (st : PMState) (p : Rat) (q : Int) : Rat :=
  p * (q : Rat) + p * (q : Rat) * st.commission_rate + p * (q : Rat) * st.slippage_rate

/-- The state produced by the successful-BUY branch of `execute_order`. -/
def buy_apply (st : PMState) (code : String) (p : Rat) (q : Int) : PMState :=
  let commission := p * (q : Rat) * st.commission_rate
  let slippage := p * (q : Rat) * st.slippage_rate
  let total_cost := p * (q : Rat) + commission + slippage
  let h0 := (hfind st.holdings code).getD { quantity := 0, avg_price := 0, current_price := p }
  let new_avg := if 0 < h0.quantity + q then
      ((h0.quantity : Rat) * h0.avg_price + p * (q : Rat)) / ((h0.quantity + q : Int) : Rat)
    else 0
  let st1 := { st with
    current_cash := st.current_cash - total_cost
    holdings := hset st.holdings code
      { quantity := h0.quantity + q, avg_price := new_avg, current_price := h0.current_price } }
  { st1 with trade_logs :=
    st1.trade_logs ++ [mkLog st1 "BUY" code p q commission slippage 0] }

/-- The state produced by the successful-SELL branch of `execute_order`,
given the holding found in the dict. -/
def sell_apply (st : PMState) (code : String) (p : Rat) (q : Int) (h : Holding) : PMState :=
  let commission := p * (q : Rat) * st.commission_rate
  let slippage := p * (q : Rat) * st.slippage_rate
  let pnl := p * (q : Rat) - h.avg_price * (q : Rat) - commission - slippage
  let holdings1 := if h.quantity - q = 0 then herase st.holdings code
    else hset st.holdings code { h with quantity := h.quantity - q }
  let st1 := { st with
    current_cash := st.current_cash + (p * (q : Rat) - commission - slippage)
    holdings := holdings1 }
  { st1 with trade_logs :=
    st1.trade_logs ++ [mkLog st1 "SELL" code p q commission slippage pnl] }

theorem exec_buy_eq (st : PMState) (code : String) (p : Rat) (q : Int)
    (hcode : code ≠ "") (hp : p ≠ 0) (hq : q ≠ 0) :
    execute_order st (buySig code p q) =
      if buy_total st p q ≤ st.current_cash then (true, buy_apply st code p q)
      else (false, st) := by
  have h1 : ¬("BUY" = "" ∨ code = "" ∨ p = 0 ∨ q = 0) := by
    push_neg
    exact ⟨by decide, hcode, hp, hq⟩
  simp only [execute_order, buySig]
  rw [if_neg h1]
  simp only [if_true, if_false]
  rfl

theorem exec_sell_eq (st : PMState) (code : String) (p : Rat) (q : Int)
    (hcode : code ≠ "") (hp : p ≠ 0) (hq : q ≠ 0) :
    execute_order st (sellSig code p q) =
      (hfind st.holdings code).elim (false, st)
        (fun h => if q ≤ h.quantity then (true, sell_apply st code p q h) else (false, st)) := by
  have h1 : ¬("SELL" = "" ∨ code = "" ∨ p = 0 ∨ q = 0) := by
    push_neg
    exact ⟨by decide, hcode, hp, hq⟩
  simp only [execute_order, sellSig]
  rw [if_neg h1, if_neg (by decide : ¬("SELL" = "BUY"))]
  simp only [if_true]
  rcases hfind st.holdings code with _ | h <;> rfl

/-- Every rejecting path of `execute_order` returns the state untouched. -/
theorem exec_false_unchanged (st : PMState) (sig : Signal)
    (h : (execute_order st sig).1 = false) : (execute_order st sig).2 = st := by
  obtain ⟨ts, sc, pr, qt⟩ := sig
  cases ts with
  | none => rfl
  | some a =>
  cases sc with
  | none => rfl
  | some b =>
  cases pr with
  | none => rfl
  | some p =>
  cases qt with
  | none => rfl
  | some q =>
  rcases hh : hfind st.holdings b with _ | hold
  all_goals
    simp only [execute_order, hh] at h ⊢
  all_goals
    split_ifs at h ⊢ <;> simp_all

/-- A signal with a missing or falsy field fails the `not all([...])`
guard: `execute_order` rejects it and returns the state untouched. -/
theorem exec_falsy (st : PMState) (sig : Signal)
    (h : sig.signal = none ∨ sig.signal = some "" ∨ sig.stock_code = none
       ∨ sig.stock_code = some "" ∨ sig.price = none ∨ sig.price = some 0
       ∨ sig.quantity = none ∨ sig.quantity = some 0) :
    execute_order st sig = (false, st) := by
  obtain ⟨ts, sc, pr, qt⟩ := sig
  cases ts with
  | none => rfl
  | some a =>
  cases sc with
  | none => rfl
  | some b =>
  cases pr with
  | none => rfl
  | some p =>
  cases qt with
  | none => rfl
  | some q =>
  simp only [Option.some.injEq] at h
  have h' : a = "" ∨ b = "" ∨ p = 0 ∨ q = 0 := by
    rcases h with h | h | h | h | h | h | h | h
    · exact absurd h (by simp)
    · exact Or.inl h
    · exact absurd h (by simp)
    · exact Or.inr (Or.inl h)
    · exact absurd h (by simp)
    · exact Or.inr (Or.inr (Or.inl h))
    · exact absurd h (by simp)
    · exact Or.inr (Or.inr (Or.inr h))
  simp only [execute_order]
  rw [if_pos h']

/-- `execute_order` never changes the cost rates. -/
theorem exec_preserves_rates (st : PMState) (sig : Signal) :
    (execute_order st sig).2.commission_rate = st.commission_rate
    ∧ (execute_order st sig).2.slippage_rate = st.slippage_rate := by
  obtain ⟨ts, sc, pr, qt⟩ := sig
  cases ts with
  | none => exact ⟨rfl, rfl⟩
  | some a =>
  cases sc with
  | none => exact ⟨rfl, rfl⟩
  | some b =>
  cases pr with
  | none => exact ⟨rfl, rfl⟩
  | some p =>
  cases qt with
  | none => exact ⟨rfl, rfl⟩
  | some q =>
  rcases hh : hfind st.holdings b with _ | h <;>
    simp only [execute_order, hh] <;>
    split_ifs <;> exact ⟨rfl, rfl⟩

/-- Under nonnegative signal fields and `commissionRate + slippageRate
≤ 1`, one `execute_order` call preserves the ledger invariant. -/
theorem exec_preserves_ok (st : PMState) (sig : Signal)
    (hrate : st.commission_rate + st.slippage_rate ≤ 1)
    (hsig : goodSignal sig) (hok : ledger_ok st) :
    ledger_ok (execute_order st sig).2 := by
  obtain ⟨ts, sc, pr, qt⟩ := sig
  cases ts with
  | none => exact hok
  | some a =>
  cases sc with
  | none => exact hok
  | some b =>
  cases pr with
  | none => exact hok
  | some p =>
  cases qt with
  | none => exact hok
  | some q =>
  have hp : 0 ≤ p := hsig.1 p rfl
  have hq0 : 0 ≤ q := hsig.2 q rfl
  by_cases hbe : b = ""
  · rw [exec_falsy st _ (Or.inr (Or.inr (Or.inr (Or.inl (by rw [hbe])))))]
    exact hok
  by_cases hpz : p = 0
  · rw [exec_falsy st _ (Or.inr (Or.inr (Or.inr (Or.inr (Or.inr (Or.inl (by rw [hpz])))))))]
    exact hok
  by_cases hqz : q = 0
  · rw [exec_falsy st _ (Or.inr (Or.inr (Or.inr (Or.inr (Or.inr (Or.inr (Or.inr
      (by rw [hqz]))))))))]
    exact hok
  by_cases ha : a = "BUY"
  · subst ha
    show ledger_ok (execute_order st (buySig b p q)).2
    rw [exec_buy_eq st b p q hbe hpz hqz]
    by_cases hc : buy_total st p q ≤ st.current_cash
    · rw [if_pos hc]
      constructor
      · show 0 ≤ st.current_cash - buy_total st p q
        linarith
      · intro ch hch
        simp only [buy_apply] at hch
        rcases mem_hset _ _ _ _ hch with rfl | hmem
        · show 0 ≤ ((hfind st.holdings b).getD
            { quantity := 0, avg_price := 0, current_price := p }).quantity + q
          rcases hh : hfind st.holdings b with _ | hfound
          · simp
            omega
          · have hq' : 0 ≤ hfound.quantity := hok.2 (b, hfound) (hfind_mem _ _ _ hh)
            simp only [hh, Option.getD_some]
            omega
        · exact hok.2 ch hmem
    · rw [if_neg hc]
      exact hok
  by_cases hsl : a = "SELL"
  · subst hsl
    show ledger_ok (execute_order st (sellSig b p q)).2
    rw [exec_sell_eq st b p q hbe hpz hqz]
    rcases hh : hfind st.holdings b with _ | h
    · exact hok
    · simp only [Option.elim_some]
      by_cases hle : q ≤ h.quantity
      · rw [if_pos hle]
        have hpq : 0 ≤ p * (q : Rat) := mul_nonneg hp (by exact_mod_cast hq0)
        constructor
        · show 0 ≤ st.current_cash
            + (p * (q : Rat) - p * (q : Rat) * st.commission_rate
               - p * (q : Rat) * st.slippage_rate)
          nlinarith [hok.1, hrate, hpq]
        · intro ch hch
          simp only [sell_apply] at hch
          by_cases hz : h.quantity - q = 0
          · rw [if_pos hz] at hch
            exact hok.2 ch (mem_herase _ _ _ hch)
          · rw [if_neg hz] at hch
            rcases mem_hset _ _ _ _ hch with rfl | hmem
            · show 0 ≤ h.quantity - q
              omega
            · exact hok.2 ch hmem
      · rw [if_neg hle]
        exact hok
  · have : execute_order st ⟨some a, some b, some p, some q⟩ = (false, st) := by
      simp only [execute_order]
      split_ifs <;> simp_all
    rw [this]
    exact hok

/-- A successful order whose action field is BUY debits cash by exactly
`cost + commission + slippage` and leaves cash nonnegative. -/
theorem exec_buy_success_cash (st : PMState) (sig : Signal)
    (hb : sig.signal = some "BUY") (hs : (execute_order st sig).1 = true) :
    (execute_order st sig).2.current_cash
        = st.current_cash - sig_total st.commission_rate st.slippage_rate sig
    ∧ 0 ≤ (execute_order st sig).2.current_cash := by
  obtain ⟨ts, sc, pr, qt⟩ := sig
  cases ts with
  | none => simp at hb
  | some a =>
  obtain rfl : a = "BUY" := by injection hb
  cases sc with
  | none => exact Bool.noConfusion hs
  | some b =>
  cases pr with
  | none => exact Bool.noConfusion hs
  | some p =>
  cases qt with
  | none => exact Bool.noConfusion hs
  | some q =>
  by_cases hbe : b = ""
  · rw [exec_falsy st _ (Or.inr (Or.inr (Or.inr (Or.inl (by rw [hbe])))))] at hs
    simp at hs
  by_cases hpz : p = 0
  · rw [exec_falsy st _ (Or.inr (Or.inr (Or.inr (Or.inr (Or.inr (Or.inl
      (by rw [hpz])))))))] at hs
    simp at hs
  by_cases hqz : q = 0
  · rw [exec_falsy st _ (Or.inr (Or.inr (Or.inr (Or.inr (Or.inr (Or.inr (Or.inr
      (by rw [hqz]))))))))] at hs
    simp at hs
  have heq : (⟨some "BUY", some b, some p, some q⟩ : Signal) = buySig b p q := rfl
  rw [heq] at hs ⊢
  rw [exec_buy_eq st b p q hbe hpz hqz] at hs ⊢
  by_cases hc : buy_total st p q ≤ st.current_cash
  · rw [if_pos hc] at hs ⊢
    refine ⟨rfl, ?_⟩
    show 0 ≤ st.current_cash - buy_total st p q
    linarith
  · rw [if_neg hc] at hs
    simp at hs

/-! ## Claims -/

/-- C1: a BUY order through `execute_order` succeeds iff cash covers
`p·q + p·q·commissionRate + p·q·slippageRate`; on success cash is
debited by exactly that total, the position quantity increases by `q`,
and the average cost basis becomes the quantity-weighted mean
`(oldQty·oldAvg + q·p)/(oldQty + q)`; after two buys `q1@p1` and
`q2@p2` into an initially flat position it equals
`(q1·p1 + q2·p2)/(q1 + q2)`. -/
theorem C1_buy_execution :
    (∀ (st : PMState) (code : String) (p : Rat) (q : Int),
      code ≠ "" → 0 < p → 0 < q → 0 ≤ get_holding_quantity st code →
      (((execute_order st (buySig code p q)).1 = true ↔
          buy_total st p q ≤ st.current_cash)
        ∧ ((execute_order st (buySig code p q)).1 = true →
            (execute_order st (buySig code p q)).2.current_cash
                = st.current_cash - buy_total st p q
            ∧ get_holding_quantity (execute_order st (buySig code p q)).2 code
                = get_holding_quantity st code + q
            ∧ get_avg_price (execute_order st (buySig code p q)).2 code
                = ((get_holding_quantity st code : Rat) * get_avg_price st code + (q : Rat) * p)
                  / ((get_holding_quantity st code : Rat) + (q : Rat)))))
    ∧ (∀ (st : PMState) (code : String) (p1 p2 : Rat) (q1 q2 : Int),
      code ≠ "" → 0 < p1 → 0 < q1 → 0 < p2 → 0 < q2 →
      hfind st.holdings code = none →
      (execute_order st (buySig code p1 q1)).1 = true →
      (execute_order (execute_order st (buySig code p1 q1)).2 (buySig code p2 q2)).1 = true →
      get_avg_price
          (execute_order (execute_order st (buySig code p1 q1)).2 (buySig code p2 q2)).2 code
        = ((q1 : Rat) * p1 + (q2 : Rat) * p2) / ((q1 : Rat) + (q2 : Rat))) := by
  have hA : ∀ (st : PMState) (code : String) (p : Rat) (q : Int),
      code ≠ "" → 0 < p → 0 < q → 0 ≤ get_holding_quantity st code →
      (((execute_order st (buySig code p q)).1 = true ↔
          buy_total st p q ≤ st.current_cash)
        ∧ ((execute_order st (buySig code p q)).1 = true →
            (execute_order st (buySig code p q)).2.current_cash
                = st.current_cash - buy_total st p q
            ∧ get_holding_quantity (execute_order st (buySig code p q)).2 code
                = get_holding_quantity st code + q
            ∧ get_avg_price (execute_order st (buySig code p q)).2 code
                = ((get_holding_quantity st code : Rat) * get_avg_price st code + (q : Rat) * p)
                  / ((get_holding_quantity st code : Rat) + (q : Rat)))) := by
    intro st code p q hcode hp hq hq0
    rw [exec_buy_eq st code p q hcode hp.ne' hq.ne']
    by_cases hc : buy_total st p q ≤ st.current_cash
    · rw [if_pos hc]
      have key : ∀ (a : Int) (b : Rat), 0 ≤ a →
          (if 0 < a + q then ((a : Rat) * b + p * (q : Rat)) / ((a + q : Int) : Rat) else 0)
            = ((a : Rat) * b + (q : Rat) * p) / ((a : Rat) + (q : Rat)) := by
        intro a b ha
        rw [if_pos (by omega)]
        push_cast
        ring_nf
      refine ⟨by simp [hc], fun _ => ⟨rfl, ?_, ?_⟩⟩
      · rcases hh : hfind st.holdings code with _ | h
        · simp [buy_apply, get_holding_quantity, hh, hfind_hset_self]
        · simp [buy_apply, get_holding_quantity, hh, hfind_hset_self]
      · rcases hh : hfind st.holdings code with _ | h
        · have := key 0 0 le_rfl
          simpa [buy_apply, get_avg_price, get_holding_quantity, hh, hfind_hset_self] using this
        · have hq0' : 0 ≤ h.quantity := by
            simpa [get_holding_quantity, hh] using hq0
          have := key h.quantity h.avg_price hq0'
          simpa [buy_apply, get_avg_price, get_holding_quantity, hh, hfind_hset_self] using this
    · rw [if_neg hc]
      exact ⟨by simpa using hc, by simp⟩
  refine ⟨hA, ?_⟩
  intro st code p1 p2 q1 q2 hcode hp1 hq1 hp2 hq2 hnone hs1 hs2
  have h0q : get_holding_quantity st code = 0 := by simp [get_holding_quantity, hnone]
  have h0a : get_avg_price st code = 0 := by simp [get_avg_price, hnone]
  have A1 := hA st code p1 q1 hcode hp1 hq1 (by rw [h0q])
  have c1 := A1.2 hs1
  have hq1' : get_holding_quantity (execute_order st (buySig code p1 q1)).2 code = q1 := by
    rw [c1.2.1, h0q, zero_add]
  have hq1ne : ((q1 : Rat)) ≠ 0 := by
    exact_mod_cast hq1.ne'
  have ha1 : get_avg_price (execute_order st (buySig code p1 q1)).2 code = p1 := by
    rw [c1.2.2, h0q, h0a]
    push_cast
    rw [zero_mul, zero_add, zero_add, mul_comm]
    exact mul_div_cancel_right₀ p1 hq1ne
  have A2 := hA (execute_order st (buySig code p1 q1)).2 code p2 q2 hcode hp2 hq2
    (by rw [hq1']; omega)
  have c2 := A2.2 hs2
  rw [c2.2.2, hq1', ha1]

/-- Witness for C1 at the spec's concrete scenario: initial capital
1,000,000, commission 0.00015, slippage 0.0001, BUY 10 @ 50,000 gives
cash 499,875 and average cost 50,000. -/
theorem C1_buy_execution_witness :
    (execute_order (initPM 1000000 (3/20000) (1/10000)) (buySig "A" 50000 10)).2.current_cash
        = 499875
    ∧ get_avg_price
        (execute_order (initPM 1000000 (3/20000) (1/10000)) (buySig "A" 50000 10)).2 "A"
        = 50000 := by
  have hA := C1_buy_execution.1 (initPM 1000000 (3/20000) (1/10000)) "A" 50000 10
    (by decide) (by norm_num) (by decide) (by decide)
  have hs : (execute_order (initPM 1000000 (3/20000) (1/10000)) (buySig "A" 50000 10)).1 = true :=
    hA.1.mpr (by norm_num [buy_total, initPM])
  have h := hA.2 hs
  refine ⟨?_, ?_⟩
  · rw [h.1]
    norm_num [buy_total, initPM]
  · rw [h.2.2]
    simp [get_holding_quantity, get_avg_price, initPM, hfind]

/-- C2: a SELL order through `execute_order` succeeds iff the held
quantity is at least `q`; on success the recorded realized PnL is
`(p − avgCost)·q − commission − slippage`, cash is credited by
`p·q − commission − slippage`, the held quantity decreases by `q`, the
average cost basis is unchanged, and the position entry is removed
when its quantity reaches zero.  (`hnd`: stock codes in the holdings
dict are distinct, as in any Python dict.) -/
theorem C2_sell_execution (st : PMState) (code : String) (p : Rat) (q : Int)
    (hcode : code ≠ "") (hp : 0 < p) (hq : 0 < q)
    (hnd : (st.holdings.map Prod.fst).Nodup) :
    (((execute_order st (sellSig code p q)).1 = true ↔ q ≤ get_holding_quantity st code)
      ∧ ((execute_order st (sellSig code p q)).1 = true →
          (execute_order st (sellSig code p q)).2.current_cash
              = st.current_cash + (p * (q : Rat)
                 - p * (q : Rat) * st.commission_rate - p * (q : Rat) * st.slippage_rate)
          ∧ ((execute_order st (sellSig code p q)).2.trade_logs.getLast?).map TradeLog.pnl
              = some ((p - get_avg_price st code) * (q : Rat)
                 - p * (q : Rat) * st.commission_rate - p * (q : Rat) * st.slippage_rate)
          ∧ get_holding_quantity (execute_order st (sellSig code p q)).2 code
              = get_holding_quantity st code - q
          ∧ (get_holding_quantity st code - q ≠ 0 →
              get_avg_price (execute_order st (sellSig code p q)).2 code = get_avg_price st code)
          ∧ (get_holding_quantity st code - q = 0 →
              hfind (execute_order st (sellSig code p q)).2.holdings code = none))) := by
  rw [exec_sell_eq st code p q hcode hp.ne' hq.ne']
  rcases hh : hfind st.holdings code with _ | h
  · have hgq : get_holding_quantity st code = 0 := by simp [get_holding_quantity, hh]
    rw [hgq]
    simp only [Option.elim_none]
    exact ⟨by simp [not_le.mpr hq], by simp⟩
  · have hgq : get_holding_quantity st code = h.quantity := by simp [get_holding_quantity, hh]
    have hga : get_avg_price st code = h.avg_price := by simp [get_avg_price, hh]
    simp only [Option.elim_some]
    by_cases hle : q ≤ h.quantity
    · rw [if_pos hle]
      refine ⟨by simp [hgq, hle], fun _ => ⟨rfl, ?_, ?_, ?_, ?_⟩⟩
      · simp only [sell_apply, List.getLast?_concat, Option.map_some]
        rw [hga]
        ring_nf
        simp [mkLog]
      · rw [hgq]
        by_cases hz : h.quantity - q = 0
        · simp only [get_holding_quantity, sell_apply, if_pos hz]
          rw [hfind_herase_self st.holdings code hnd]
          simp
          omega
        · simp only [get_holding_quantity, sell_apply, if_neg hz]
          rw [hfind_hset_self]
          simp
      · intro hnz
        rw [hgq] at hnz
        simp only [get_avg_price, sell_apply, if_neg hnz]
        rw [hfind_hset_self]
        simp [hh]
      · intro hz
        rw [hgq] at hz
        simp only [sell_apply, if_pos hz]
        exact hfind_herase_self st.holdings code hnd
    · rw [if_neg hle]
      rw [hgq]
      exact ⟨by simp [hle], by simp⟩

/-- Witness for C2 at the spec's concrete scenario: holding 10 @ avg
50,000 with cash 499,875, SELL 10 @ 51,000 gives cash 1,009,747.5,
realized PnL 9,872.5, and the position removed. -/
theorem C2_sell_execution_witness :
    ((String.length "" = 0)
      ∧ (execute_order
          { initial_capital := 1000000, current_cash := 499875
            holdings := [("A", { quantity := 10, avg_price := 50000, current_price := 50000 })]
            trade_logs := [], portfolio_value_history := []
            commission_rate := 3/20000, slippage_rate := 1/10000, current_date := 0 }
          (sellSig "A" 51000 10)).2.current_cash = 2019495 / 2
      ∧ ((execute_order
          { initial_capital := 1000000, current_cash := 499875
            holdings := [("A", { quantity := 10, avg_price := 50000, current_price := 50000 })]
            trade_logs := [], portfolio_value_history := []
            commission_rate := 3/20000, slippage_rate := 1/10000, current_date := 0 }
          (sellSig "A" 51000 10)).2.trade_logs.getLast?).map TradeLog.pnl = some (19745 / 2)
      ∧ hfind (execute_order
          { initial_capital := 1000000, current_cash := 499875
            holdings := [("A", { quantity := 10, avg_price := 50000, current_price := 50000 })]
            trade_logs := [], portfolio_value_history := []
            commission_rate := 3/20000, slippage_rate := 1/10000, current_date := 0 }
          (sellSig "A" 51000 10)).2.holdings "A" = none) := by
  have hC := C2_sell_execution
    { initial_capital := 1000000, current_cash := 499875
      holdings := [("A", { quantity := 10, avg_price := 50000, current_price := 50000 })]
      trade_logs := [], portfolio_value_history := []
      commission_rate := 3/20000, slippage_rate := 1/10000, current_date := 0 }
    "A" 51000 10 (by decide) (by norm_num) (by decide) (by simp)
  have hs := hC.1.mpr (by simp [get_holding_quantity, hfind])
  have h := hC.2 hs
  refine ⟨rfl, ?_, ?_, ?_⟩
  · rw [h.1]
    norm_num
  · rw [h.2.1]
    norm_num [get_avg_price, hfind]
  · exact h.2.2.2.2 (by simp [get_holding_quantity, hfind])

/-- C3: whenever `execute_order` reports failure — including every order
whose action is neither BUY nor SELL — the entire ledger state (cash,
holdings, trade logs, snapshot history) is returned unchanged, and no
trade record is appended.  The embedding is a total function, so no
rejection path raises. -/
theorem C3_rejection_no_mutation (st : PMState) (sig : Signal) :
    ((execute_order st sig).1 = false → (execute_order st sig).2 = st)
    ∧ (∀ a, sig.signal = some a → a ≠ "BUY" → a ≠ "SELL" →
        (execute_order st sig).1 = false) := by
  refine ⟨exec_false_unchanged st sig, ?_⟩
  intro a ha hb hs
  obtain ⟨ts, sc, pr, qt⟩ := sig
  cases ts with
  | none => rfl
  | some a' =>
  cases sc with
  | none => rfl
  | some b =>
  cases pr with
  | none => rfl
  | some p =>
  cases qt with
  | none => rfl
  | some q =>
  obtain rfl : a' = a := by injection ha
  simp only [execute_order]
  split_ifs <;> simp_all

/-- Witness for C3: a HOLD signal is rejected and leaves the freshly
initialized ledger exactly as it was. -/
theorem C3_rejection_no_mutation_witness :
    (execute_order (initPM 1000 0 0) ⟨some "HOLD", some "A", some 10, some 5⟩).2
      = initPM 1000 0 0 :=
  (C3_rejection_no_mutation (initPM 1000 0 0) ⟨some "HOLD", some "A", some 10, some 5⟩).1
    ((C3_rejection_no_mutation (initPM 1000 0 0) ⟨some "HOLD", some "A", some 10, some 5⟩).2
      "HOLD" rfl (by decide) (by decide))

/-- C10: a signal with a missing action, stock code, price or quantity,
or with price 0 or quantity 0, is rejected by the `not all([...])`
guard of `execute_order`: the call returns failure and the state is
untouched, regardless of cash or holdings. -/
theorem C10_falsy_signal_rejected (st : PMState) (sig : Signal)
    (h : sig.signal = none ∨ sig.stock_code = none ∨ sig.price = none
       ∨ sig.price = some 0 ∨ sig.quantity = none ∨ sig.quantity = some 0) :
    execute_order st sig = (false, st) := by
  obtain ⟨ts, sc, pr, qt⟩ := sig
  cases ts with
  | none => rfl
  | some a =>
  cases sc with
  | none => rfl
  | some b =>
  cases pr with
  | none => rfl
  | some p =>
  cases qt with
  | none => rfl
  | some q =>
  simp only [Option.some.injEq] at h
  have h' : p = 0 ∨ q = 0 := by
    rcases h with h | h | h | h | h | h
    · exact absurd h (by simp)
    · exact absurd h (by simp)
    · exact absurd h (by simp)
    · exact Or.inl h
    · exact absurd h (by simp)
    · exact Or.inr h
  simp only [execute_order]
  rw [if_pos (h'.elim (fun hp => Or.inr (Or.inr (Or.inl hp)))
    (fun hq => Or.inr (Or.inr (Or.inr hq))))]

/-- Witness for C10: a BUY of quantity 0 is rejected even with ample
cash. -/
theorem C10_falsy_signal_rejected_witness :
    execute_order (initPM 1000 0 0) ⟨some "BUY", some "A", some 7, some 0⟩
      = (false, initPM 1000 0 0) :=
  C10_falsy_signal_rejected (initPM 1000 0 0) ⟨some "BUY", some "A", some 7, some 0⟩
    (Or.inr (Or.inr (Or.inr (Or.inr (Or.inr rfl)))))

/-- C4 counterexample: with commission and slippage rates 0 (both ≥ 0)
and initial capital 1000 ≥ 0, the single BUY signal with quantity −1 —
which passes the `not all([...])` guard because −1 is truthy — is
accepted by `execute_order` and leaves a held position with quantity
−1 < 0, refuting the claimed invariant over arbitrary signal
sequences. -/
theorem C4_counterexample :
    (execute_order (initPM 1000 0 0) (buySig "A" 100 (-1))).1 = true
    ∧ get_holding_quantity
        (execute_order (initPM 1000 0 0) (buySig "A" 100 (-1))).2 "A" = -1 := by
  rw [exec_buy_eq (initPM 1000 0 0) "A" 100 (-1) (by decide) (by norm_num) (by decide)]
  rw [if_pos (by norm_num [buy_total, initPM])]
  refine ⟨rfl, ?_⟩
  simp [buy_apply, get_holding_quantity, initPM, hfind, hset]

/-- C4 (amended): restricted to signals whose price and quantity
fields, when present, are nonnegative, and to cost rates with
`commissionRate + slippageRate ≤ 1`, every sequence of orders through
`execute_order` preserves cash ≥ 0 and all held quantities ≥ 0; and
for any sequence of BUY orders that all succeed, final cash equals
starting cash minus the sum of each buy's total cost, and is
nonnegative whenever the starting cash was. -/
theorem C4_cash_position_invariants :
    (∀ (st : PMState) (sigs : List Signal),
      st.commission_rate + st.slippage_rate ≤ 1 →
      (∀ sg ∈ sigs, goodSignal sg) → ledger_ok st →
      ledger_ok (apply_signals st sigs))
    ∧ (∀ (st : PMState) (sigs : List Signal),
      (∀ sg ∈ sigs, sg.signal = some "BUY") → all_succeed st sigs →
      (apply_signals st sigs).current_cash
        = st.current_cash - (sigs.map (sig_total st.commission_rate st.slippage_rate)).sum
      ∧ (0 ≤ st.current_cash → 0 ≤ (apply_signals st sigs).current_cash)) := by
  have part1 : ∀ (sigs : List Signal) (st : PMState),
      st.commission_rate + st.slippage_rate ≤ 1 →
      (∀ sg ∈ sigs, goodSignal sg) → ledger_ok st →
      ledger_ok (apply_signals st sigs) := by
    intro sigs
    induction sigs with
    | nil => intro st _ _ h; exact h
    | cons sg rest ih =>
      intro st hrate hgood hok
      have hr := exec_preserves_rates st sg
      show ledger_ok (apply_signals (execute_order st sg).2 rest)
      exact ih _ (by rw [hr.1, hr.2]; exact hrate)
        (fun g hg => hgood g (List.mem_cons_of_mem _ hg))
        (exec_preserves_ok st sg hrate (hgood sg (List.mem_cons_self _ _)) hok)
  have part2 : ∀ (sigs : List Signal) (st : PMState),
      (∀ sg ∈ sigs, sg.signal = some "BUY") → all_succeed st sigs →
      (apply_signals st sigs).current_cash
        = st.current_cash - (sigs.map (sig_total st.commission_rate st.slippage_rate)).sum
      ∧ (0 ≤ st.current_cash → 0 ≤ (apply_signals st sigs).current_cash) := by
    intro sigs
    induction sigs with
    | nil =>
      intro st _ _
      exact ⟨by simp [apply_signals], fun h => h⟩
    | cons sg rest ih =>
      intro st hbuy hsucc
      obtain ⟨h1, h2⟩ := hsucc
      have hc := exec_buy_success_cash st sg (hbuy sg (List.mem_cons_self _ _)) h1
      have hr := exec_preserves_rates st sg
      have ihh := ih (execute_order st sg).2
        (fun g hg => hbuy g (List.mem_cons_of_mem _ hg)) h2
      constructor
      · show (apply_signals (execute_order st sg).2 rest).current_cash = _
        rw [ihh.1, hc.1, hr.1, hr.2]
        simp only [List.map_cons, List.sum_cons]
        ring
      · intro _
        exact ihh.2 hc.2
  exact ⟨fun st sigs h1 h2 h3 => part1 sigs st h1 h2 h3,
    fun st sigs h1 h2 => part2 sigs st h1 h2⟩

/-- Witness for C4 (amended): one affordable BUY of 5 @ 10 with zero
rates keeps the invariant and leaves cash 1000 − 50 = 950. -/
theorem C4_cash_position_invariants_witness :
    ledger_ok (apply_signals (initPM 1000 0 0) [buySig "A" 10 5])
    ∧ (apply_signals (initPM 1000 0 0) [buySig "A" 10 5]).current_cash = 950 := by
  have hgood : ∀ sg ∈ [buySig "A" 10 5], goodSignal sg := by
    intro sg hsg
    simp only [List.mem_singleton] at hsg
    subst hsg
    constructor
    · intro x hx
      have h10 : (buySig "A" 10 5).price = some (10 : Rat) := rfl
      rw [h10] at hx
      injection hx with hx
      subst hx
      norm_num
    · intro x hx
      have h5 : (buySig "A" 10 5).quantity = some (5 : Int) := rfl
      rw [h5] at hx
      injection hx with hx
      omega
  have hok0 : ledger_ok (initPM 1000 0 0) := ⟨by norm_num [initPM], by simp [initPM]⟩
  have hsucc : all_succeed (initPM 1000 0 0) [buySig "A" 10 5] := by
    refine ⟨?_, trivial⟩
    rw [exec_buy_eq _ _ _ _ (by decide) (by norm_num) (by decide)]
    rw [if_pos (by norm_num [buy_total, initPM])]
  have h1 := C4_cash_position_invariants.1 (initPM 1000 0 0) [buySig "A" 10 5]
    (by norm_num [initPM]) hgood hok0
  have h2 := C4_cash_position_invariants.2 (initPM 1000 0 0) [buySig "A" 10 5]
    (by intro sg hsg; simp only [List.mem_singleton] at hsg; subst hsg; rfl) hsucc
  refine ⟨h1, ?_⟩
  rw [h2.1]
  norm_num [sig_total, buySig, initPM]

/-- Closed form of `updateHoldings`: each held position keeps its
quantity and average price; its mark becomes the mapped price when the
stock is in the price map and is otherwise left alone; the accumulated
value sums `quantity * mapped price` over mapped stocks only. -/
theorem updateHoldings_spec (prices : List (String × Rat)) (hs : List (String × Holding)) :
    updateHoldings prices hs
      = (hs.map (fun ch =>
           (ch.1, { ch.2 with current_price := (hfind prices ch.1).getD ch.2.current_price })),
         (hs.map (fun ch =>
           match hfind prices ch.1 with
           | some p => (ch.2.quantity : Rat) * p
           | none => 0)).sum) := by
  induction hs with
  | nil => simp [updateHoldings]
  | cons ch rest ih =>
    obtain ⟨c, h⟩ := ch
    rcases hp : hfind prices c with _ | p <;>
      simp [updateHoldings, hp, ih]

/-- C6 counterexample: a ledger holding 10 units of "A" marked at 100
with zero cash, updated with an *empty* price map, appends a snapshot
whose total value is 0 — not `cash + Σ(quantity × mark price)` over
all held positions (which `get_current_portfolio_value` computes as
1000 on the very state after the call). -/
theorem C6_counterexample :
    ((update_current_market_data
        { initial_capital := 1000, current_cash := 0
          holdings := [("A", { quantity := 10, avg_price := 50, current_price := 100 })]
          trade_logs := [], portfolio_value_history := []
          commission_rate := 0, slippage_rate := 0, current_date := 0 }
        5 []).portfolio_value_history.map Snapshot.portfolio_value) = [0]
    ∧ get_current_portfolio_value (update_current_market_data
        { initial_capital := 1000, current_cash := 0
          holdings := [("A", { quantity := 10, avg_price := 50, current_price := 100 })]
          trade_logs := [], portfolio_value_history := []
          commission_rate := 0, slippage_rate := 0, current_date := 0 }
        5 []) = 1000
    ∧ (0 : Rat) ≠ 1000 := by
  refine ⟨?_, ?_, by norm_num⟩
  · simp [update_current_market_data, updateHoldings_spec, hfind]
  · simp [update_current_market_data, updateHoldings_spec, hfind,
      get_current_portfolio_value, holdings_value]
    norm_num

/-- C6 (amended): `update_current_market_data` re-marks every held
position present in the price map with the mapped price, leaves
positions absent from the map with their last known mark (quantities
and average prices untouched in both cases), and appends exactly one
snapshot; the snapshot's total value is cash plus the sum of
`quantity × mapped price` over the held positions present in the map —
positions absent from the map contribute nothing to it. -/
theorem C6_update_marks (st : PMState) (ts : Nat) (prices : List (String × Rat)) :
    (update_current_market_data st ts prices).holdings
        = st.holdings.map (fun ch =>
            (ch.1, { ch.2 with current_price := (hfind prices ch.1).getD ch.2.current_price }))
    ∧ (update_current_market_data st ts prices).portfolio_value_history
        = st.portfolio_value_history ++
          [{ date := ts
             portfolio_value := st.current_cash + (st.holdings.map (fun ch =>
               match hfind prices ch.1 with
               | some p => (ch.2.quantity : Rat) * p
               | none => 0)).sum
             cash := st.current_cash
             holdings_value := (st.holdings.map (fun ch =>
               match hfind prices ch.1 with
               | some p => (ch.2.quantity : Rat) * p
               | none => 0)).sum }]
    ∧ (update_current_market_data st ts prices).current_cash = st.current_cash := by
  refine ⟨?_, ?_, rfl⟩ <;>
    simp [update_current_market_data, updateHoldings_spec]

/-! ## Drawdown lemmas -/

theorem runningPeaksAux_length (m : Rat) (l : List Rat) :
    (runningPeaksAux m l).length = l.length := by
  induction l generalizing m with
  | nil => rfl
  | cons v rest ih => simp [runningPeaksAux, ih]

theorem runningPeaks_length (vs : List Rat) : (runningPeaks vs).length = vs.length := by
  cases vs with
  | nil => rfl
  | cons v rest => simp [runningPeaks, runningPeaksAux_length]

theorem runningPeaksAux_getElem (l : List Rat) (m : Rat) (i : Nat)
    (h : i < (runningPeaksAux m l).length) :
    (runningPeaksAux m l)[i] = (l.take (i + 1)).foldl max m := by
  induction l generalizing m i with
  | nil => simp [runningPeaksAux] at h
  | cons v rest ih =>
    cases i with
    | zero => simp [runningPeaksAux]
    | succ i =>
      have h' : i < (runningPeaksAux (max m v) rest).length := by
        simpa [runningPeaksAux] using h
      simp only [runningPeaksAux, List.getElem_cons_succ]
      rw [ih (max m v) i h']
      rfl

theorem runningPeaks_getElem (vs : List Rat) (i : Nat) (h : i < (runningPeaks vs).length) :
    (runningPeaks vs)[i] = listMax (vs.take (i + 1)) := by
  cases vs with
  | nil => simp [runningPeaks] at h
  | cons v rest =>
    cases i with
    | zero => simp [runningPeaks, listMax]
    | succ i =>
      have h' : i < (runningPeaksAux v rest).length := by
        simpa [runningPeaks] using h
      simp only [runningPeaks, List.getElem_cons_succ]
      rw [runningPeaksAux_getElem rest v i h']
      rfl

theorem drawdowns_eq_spec (vs : List Rat) : drawdowns vs = spec_drawdowns vs := by
  apply List.ext_getElem
  · simp [drawdowns, spec_drawdowns, runningPeaks_length]
  · intro i h1 h2
    have hb : i < vs.length := by
      simpa [drawdowns, runningPeaks_length] using h1
    have hp : i < (runningPeaks vs).length := by
      simpa [runningPeaks_length] using hb
    simp only [drawdowns, List.getElem_zipWith, spec_drawdowns, List.getElem_map,
      List.getElem_range]
    rw [runningPeaks_getElem vs i hp, List.getD_eq_getElem vs 0 hb]
    rfl

theorem foldl_min_le (l : List Rat) (a : Rat) : l.foldl min a ≤ a := by
  induction l generalizing a with
  | nil => exact le_rfl
  | cons b rest ih => exact le_trans (ih (min a b)) (min_le_left a b)

theorem max_drawdown_nonpos (st : PMState) : max_drawdown st ≤ 0 := by
  simp only [max_drawdown]
  rcases hvs : st.portfolio_value_history.map Snapshot.portfolio_value with _ | ⟨v, rest⟩
  · simp
  · rw [if_neg (by simp)]
    have hd : drawdowns (v :: rest)
        = 0 :: List.zipWith (fun a pk => (a - pk) / pk) rest (runningPeaksAux v rest) := by
      simp [drawdowns, runningPeaks]
    rw [hd]
    have h1 : listMin (0 :: List.zipWith (fun a pk => (a - pk) / pk) rest
        (runningPeaksAux v rest)) ≤ 0 := foldl_min_le _ 0
    nlinarith [h1]

theorem winrate_filter_eq (l : List TradeLog) :
    l.filter (fun t => decide (0 < t.pnl) && decide (t.trade_type = "SELL"))
      = (l.filter (fun t => decide (t.trade_type = "SELL"))).filter
          (fun t => decide (0 < t.pnl)) := by
  rw [List.filter_filter]

/-- C7: `get_final_results` returns total return
`(finalValue − initialCapital)/initialCapital × 100` (0 when the
initial capital is not positive); max drawdown equal to the minimum
over the snapshot series of `(value − runningPeak)/runningPeak × 100`
with `runningPeak` the running maximum up to and including the point
(0 with no snapshots), always ≤ 0; and win rate
`(#SELL trades with PnL > 0)/(#SELL trades) × 100` (0 with no sells). -/
theorem C7_final_results (st : PMState) :
    (get_final_results st).total_return
        = (if 0 < st.initial_capital then
            (get_current_portfolio_value st - st.initial_capital) / st.initial_capital * 100
          else 0)
    ∧ (get_final_results st).max_drawdown
        = spec_max_drawdown (st.portfolio_value_history.map Snapshot.portfolio_value)
    ∧ (get_final_results st).max_drawdown ≤ 0
    ∧ (get_final_results st).win_rate
        = (if (st.trade_logs.filter (fun t => decide (t.trade_type = "SELL"))).length = 0 then 0
          else (((st.trade_logs.filter (fun t => decide (t.trade_type = "SELL"))).filter
                  (fun t => decide (0 < t.pnl))).length : Rat)
            / ((st.trade_logs.filter (fun t => decide (t.trade_type = "SELL"))).length : Rat)
            * 100) := by
  refine ⟨rfl, ?_, max_drawdown_nonpos st, ?_⟩
  · show max_drawdown st = _
    simp only [max_drawdown, spec_max_drawdown, drawdowns_eq_spec]
  · show (if _ then _ else _) = _
    rw [← winrate_filter_eq]

/-- C5: the per-instrument window handed to the strategy contains
exactly the stored bars with timestamp between the run start and the
current step inclusive, never a bar beyond the current step; in
intraday mode the driver iterates over the sorted deduplicated union
of the day's minute timestamps, and each instrument's window at an
instant is exactly its bars with timestamp ≤ that instant. -/
theorem C5_no_lookahead :
    (∀ (db : String → List (Nat × Bar)) (stock_list : List String) (s cur : Nat)
       (code : String) (w : List (Nat × Bar)),
      (code, w) ∈ daily_window_data db stock_list s cur →
      ∀ b, b ∈ w ↔ (b ∈ db code ∧ s ≤ b.1 ∧ b.1 ≤ cur))
    ∧ (∀ raws : List (String × List (Nat × Bar)),
        (all_datetimes raws).Sorted (· ≤ ·)
        ∧ (all_datetimes raws).Nodup
        ∧ (∀ t, t ∈ all_datetimes raws ↔ ∃ cd ∈ raws, t ∈ cd.2.map Prod.fst))
    ∧ (∀ (raws : List (String × List (Nat × Bar))) (t : Nat) (code : String)
         (w : List (Nat × Bar)),
        (code, w) ∈ minute_window_data raws t →
        ∃ df, (code, df) ∈ raws ∧ ∀ b, b ∈ w ↔ (b ∈ df ∧ b.1 ≤ t)) := by
  refine ⟨?_, ?_, ?_⟩
  · intro db L s cur code w hw b
    simp only [daily_window_data, List.mem_filterMap] at hw
    obtain ⟨c0, _, hf⟩ := hw
    by_cases hdf : get_daily_data db c0 s cur = []
    · rw [if_pos hdf] at hf
      cases hf
    · rw [if_neg hdf] at hf
      obtain ⟨h1, h2⟩ := Prod.mk.injEq .. ▸ Option.some.inj hf
      subst h1
      subst h2
      simp [get_daily_data, List.mem_filter, and_assoc]
  · intro raws
    refine ⟨List.sorted_mergeSort' _, ?_, ?_⟩
    · exact ((List.mergeSort_perm _ _).nodup_iff).mpr (List.nodup_dedup _)
    · intro t
      rw [show all_datetimes raws
          = (raws.flatMap (fun cd => cd.2.map Prod.fst)).dedup.mergeSort (· ≤ ·) from rfl]
      rw [List.mem_mergeSort, List.mem_dedup, List.mem_flatMap]
  · intro raws t code w hw
    simp only [minute_window_data, List.mem_filterMap] at hw
    obtain ⟨cd, hcd, hf⟩ := hw
    by_cases hdf : minute_window cd.2 t = []
    · rw [if_pos hdf] at hf
      cases hf
    · rw [if_neg hdf] at hf
      obtain ⟨h1, h2⟩ := Prod.mk.injEq .. ▸ Option.some.inj hf
      refine ⟨cd.2, by rw [← h1]; exact hcd, ?_⟩
      intro b
      subst h2
      simp [minute_window, List.mem_filter]

/-- Witness for C5: with bars at days 1, 2, 3 for stock "A" and the
current step at day 2, the bar of day 3 is not in the window. -/
theorem C5_no_lookahead_witness :
    (3, (⟨7⟩ : Bar)) ∉ get_daily_data
      (fun c => if c = "A" then [(1, (⟨5⟩ : Bar)), (2, ⟨6⟩), (3, ⟨7⟩)] else []) "A" 1 2 := by
  intro hmem3
  have hw : ("A", get_daily_data
      (fun c => if c = "A" then [(1, (⟨5⟩ : Bar)), (2, ⟨6⟩), (3, ⟨7⟩)] else []) "A" 1 2)
      ∈ daily_window_data
        (fun c => if c = "A" then [(1, (⟨5⟩ : Bar)), (2, ⟨6⟩), (3, ⟨7⟩)] else [])
        ["A"] 1 2 := by
    simp [daily_window_data, get_daily_data]
  have h := (C5_no_lookahead.1
    (fun c => if c = "A" then [(1, (⟨5⟩ : Bar)), (2, ⟨6⟩), (3, ⟨7⟩)] else [])
    ["A"] 1 2 "A" _ hw (3, ⟨7⟩)).mp hmem3
  exact absurd h.2.2 (by norm_num)

/-- C8 counterexample: with a nonempty universe, dates day 1 to day 1,
and NEGATIVE initial capital −5, `run_backtest` does not abort and
raises nothing: it enters the day loop and returns results with one
snapshot recorded — partial results despite the invalid configuration. -/
theorem C8_counterexample :
    ((run_backtest
        { stock_list := ["A"], start_date := some 1, end_date := some 1
          initial_capital := -5, commission_rate := 0, slippage_rate := 0 }
        (fun c => if c = "A" then [(1, (⟨10⟩ : Bar))] else [])
        (fun _ _ => [])).map
      (fun r => r.2.portfolio_value_history.length)) = some 1 := by
  rfl

/-- C8 (amended): `run_backtest` returns early — logging an error and
returning `None` rather than raising — exactly when the stock list is
empty or a date is unset; neither a non-positive initial capital nor
an inverted date range is checked, so those configurations run to
completion and produce results. -/
theorem C8_config_guard (cfg : BTConfig) (db : String → List (Nat × Bar))
    (strat : Nat → List (String × List (Nat × Bar)) → List Signal) :
    run_backtest cfg db strat = none
      ↔ (cfg.stock_list = [] ∨ cfg.start_date = none ∨ cfg.end_date = none) := by
  obtain ⟨L, sd, ed, cap, cr, sr⟩ := cfg
  constructor
  · intro h
    by_contra hc
    push_neg at hc
    obtain ⟨h1, h2, h3⟩ := hc
    rcases sd with _ | s
    · exact h2 rfl
    rcases ed with _ | e
    · exact h3 rfl
    have hguard : ¬((L = [] ∨ (some s : Option Nat) = none ∨ (some e : Option Nat) = none)) := by
      push_neg
      exact ⟨h1, by simp, by simp⟩
    simp only [run_backtest, if_neg hguard] at h
    exact Option.noConfusion h
  · intro h
    simp only [run_backtest]
    rw [if_pos h]

/-- C9: at a dead cross (previous short MA 12 ≥ previous long MA 10,
current short MA 7.5 < long MA 15 on closes 30, 10, 5) the reference
strategy consults only its local `current_positions` flag — left
`False` by `on_init` and never updated afterwards — and emits HOLD
instead of querying the ledger's live holding; and even with the flag
forced `True` its SELL quantity is the hard-coded literal 100, not the
held quantity.  `generate_signal` takes no ledger argument at all. -/
theorem C9_strategy_ignores_ledger :
    (generate_signal
        { short_window := 2, long_window := 3
          previous_short_ma := [("A", some 12)], previous_long_ma := [("A", some 10)]
          current_positions := [("A", false)] }
        "A" [(1, 30), (2, 10), (3, 5)]).1.signal = some "HOLD"
    ∧ (generate_signal
        { short_window := 2, long_window := 3
          previous_short_ma := [("A", some 12)], previous_long_ma := [("A", some 10)]
          current_positions := [("A", true)] }
        "A" [(1, 30), (2, 10), (3, 5)]).1.quantity = some 100 := by
  constructor <;>
  · simp only [generate_signal, mean, lastN, hfind]
    norm_num
    simp

end Backtest
